import Mathlib

/-!
Verification of the voice-management and effects engine of a Web Audio
polyphonic synthesizer.  The main engine is the ES-module `Synth` class
(`src/unnamed/part_003`); auxiliary variants live in `src/main.js`
(two MIDI handler variants), `src/synth.js` (classic `SynthVoice`) and
`src/unnamed/part_004` (classic `Synth` class and `FX` rack).

The embedding models the control-path state machine exactly: JS `Map`s
become insertion-ordered association lists, JS `Set`s become
insertion-ordered duplicate-free lists, and Web Audio `AudioParam`
automation calls become explicit command logs per voice.  The field
`gainValue` (resp. `freqValue`) models `param.value` as read by the
code between events (ramps are assumed settled at event boundaries;
claims only ever use the fact that the code *reads* this value, never
its numeric trajectory).  Real time is not modelled; command durations
are recorded symbolically.
-/

namespace SynthModel

/-- JS helper `clamp(v, a, b) = Math.min(b, Math.max(a, v))` from part_003. -/
def clampQ (v a b : ℚ) : ℚ := min b (max a v)

/-- `x || d` on a JS number that may be NaN (`none`) or a number:
NaN and 0 are falsy and yield the default. -/
def jsOr (x : Option ℚ) (d : ℚ) : ℚ :=
  match x with
  | none => d
  | some v => if v = 0 then d else v

/-- `mtof` from part_003: `440 * Math.pow(2, (m - 69) / 12)`. -/
noncomputable def mtof (m : ℕ) : ℝ := 440 * (2 : ℝ) ^ (((m : ℝ) - 69) / 12)

/-! ### Insertion-ordered association lists (JS `Map`) -/

/-- `Map.get`: first entry with the given key. -/
def alookup {α : Type} : List (ℕ × α) → ℕ → Option α
  | [], _ => none
  | (k, v) :: rest, key => if k = key then some v else alookup rest key

/-- In-place mutation of the value stored at a key (JS objects are
mutated through the reference held in the `Map`, preserving order). -/
def aupdate {α : Type} (f : α → α) : List (ℕ × α) → ℕ → List (ℕ × α)
  | [], _ => []
  | (k, v) :: rest, key => if k = key then (k, f v) :: rest else (k, v) :: aupdate f rest key

/-- `Map.delete`: removes the entry with the given key. -/
def aerase {α : Type} : List (ℕ × α) → ℕ → List (ℕ × α)
  | [], _ => []
  | (k, v) :: rest, key => if k = key then rest else (k, v) :: aerase rest key

/-- `Set.add`: append if absent (JS `Set` preserves insertion order). -/
def setAdd (l : List ℕ) (x : ℕ) : List ℕ := if x ∈ l then l else l ++ [x]

/-! ### Voice (part_003, class `Voice`) -/

/-- One Web Audio `AudioParam` automation call on a gain param. -/
inductive GainCmd
  | cancel : GainCmd
  | setValue (v : ℚ) : GainCmd
  | rampTo (target : ℚ) (dur : ℚ) : GainCmd
deriving DecidableEq, Repr

/-- One automation call on an oscillator `frequency` param.  Targets are
real frequencies; durations are in milliseconds, symbolic. -/
inductive FreqCmd
  | cancel : FreqCmd
  | setValue (v : ℝ) : FreqCmd
  | rampOver (target : ℝ) (durMs : ℚ) : FreqCmd
  | setNow (v : ℝ) : FreqCmd

/-- `this.env = { attack: 0.005, decay: 0.08, sustain: 0.85, release: 0.25 }`. -/
structure EnvParams where
  attack : ℚ
  decay : ℚ
  sustain : ℚ
  releaseDur : ℚ
deriving DecidableEq

def defaultEnv : EnvParams := ⟨5/1000, 8/100, 85/100, 25/100⟩

/-- The `Voice` class of part_003, restricted to the state the voice
manager observes.  `gainValue` models `this.amp.gain.value`, `freqValue`
models `osc.frequency.value`, the `*Sched` lists log the automation
calls issued on those params. -/
structure Voice where
  id : ℕ
  freq : ℝ
  freqValue : ℝ
  lastFreq : ℝ
  gainValue : ℚ
  gainSched : List GainCmd
  freqSched : List FreqCmd
  env : EnvParams
  stopped : Bool

/-- Voice construction (constructor of `Voice`): `amp.gain.value = 0`,
oscillators start at `opts.freq`, `stopped = false`. -/
def Voice.init (id : ℕ) (freq : ℝ) : Voice :=
  { id := id, freq := freq, freqValue := freq, lastFreq := freq,
    gainValue := 0, gainSched := [], freqSched := [],
    env := defaultEnv, stopped := false }

/-- `Voice.trigger(vel)`: cancel pending ramps, set the param to its
*current* value (`this.amp.gain.value`), ramp to `peak = max(0.0001, vel)`
over `attack`, then to `peak * sustain` over `decay`.  The settled value
after the decay ramp is `peak * sustain`. -/
def Voice.trigger (v : Voice) (vel : ℚ) : Voice :=
  let peak := max (1/10000) vel
  { v with
    gainSched := v.gainSched ++
      [GainCmd.cancel, GainCmd.setValue v.gainValue,
       GainCmd.rampTo peak v.env.attack,
       GainCmd.rampTo (peak * v.env.sustain) (v.env.attack + v.env.decay)],
    gainValue := peak * v.env.sustain }

/-- `Voice.release()`: guarded by `this.stopped`; cancels ramps, sets the
param to its current value and ramps to 0.0001 over `release`; the
oscillators are stopped after the release tail (the later `onEnded`
callback is modelled as a separate event, see `Synth.endedCallback`). -/
def Voice.release (v : Voice) : Voice :=
  if v.stopped then v
  else
    { v with
      stopped := true,
      gainSched := v.gainSched ++
        [GainCmd.cancel, GainCmd.setValue v.gainValue,
         GainCmd.rampTo (1/10000) v.env.releaseDur],
      gainValue := 1/10000 }

/-- `Voice.setFrequencySmooth(freq, glideMs)`: cancel, then either ramp
from the current frequency value to `freq` over `max(0, glideMs)` ms
(when `glideMs > 0`) or set it immediately. -/
def Voice.setFrequencySmooth (v : Voice) (freq : ℝ) (glideMs : ℚ) : Voice :=
  { v with
    freq := freq,
    lastFreq := freq,
    freqValue := freq,
    freqSched := v.freqSched ++
      (if glideMs > 0 then
        [FreqCmd.cancel, FreqCmd.setValue v.freqValue,
         FreqCmd.rampOver freq (max 0 glideMs)]
      else
        [FreqCmd.cancel, FreqCmd.setNow freq]) }

/-! ### Synth (part_003, class `Synth`) -/

structure DelayParams where
  mix : ℚ
  timeMs : ℚ
  feedback : ℚ
deriving DecidableEq

structure ReverbParams where
  mix : ℚ
  decaySec : ℚ
  preDelayMs : ℚ
deriving DecidableEq

structure Params where
  oscCount : ℕ
  mono : Bool
  glideMs : ℚ
  masterGain : ℚ
  delay : DelayParams
  reverb : ReverbParams
  distortionDrive : ℚ
  maxVoices : ℕ
deriving DecidableEq

/-- The `this.params` literal of the `Synth` constructor. -/
def initParams : Params :=
  { oscCount := 1, mono := false, glideMs := 90, masterGain := 6/10,
    delay := { mix := 0, timeMs := 320, feedback := 35/100 },
    reverb := { mix := 0, decaySec := 28/10, preDelayMs := 20 },
    distortionDrive := 0,
    maxVoices := 16 }

/-- `setDelayFeedback(fb)`: `clamp(parseFloat(fb) || 0, 0, 0.95)` stored
into `params.delay.feedback` (and pushed to the feedback gain node).
`none` models a NaN parse result. -/
def Params.setDelayFeedback (p : Params) (fb : Option ℚ) : Params :=
  { p with delay := { p.delay with feedback := clampQ (jsOr fb 0) 0 (95/100) } }

/-- Control-path state of the `Synth` class.  `released` is the trace of
`Voice.release()` invocations made by the manager (each entry is the id
of a voice whose Release ramp was scheduled at that point), and
`graveyard` retains the final state of each voice object removed from
the live map while its release tail still sounds (in the code the
deleted `Voice` keeps ramping until its oscillators stop). -/
structure Synth where
  params : Params
  voices : List (ℕ × Voice)
  noteStacks : List (ℕ × List ℕ)
  pressedNotes : List ℕ
  voiceCounter : ℕ
  monoVoiceId : Option ℕ
  released : List ℕ
  graveyard : List Voice

def Synth.init : Synth :=
  { params := initParams, voices := [], noteStacks := [],
    pressedNotes := [], voiceCounter := 0, monoVoiceId := none,
    released := [], graveyard := [] }

/-- `setMono(enabled)`: flips the flag; when turning mono *off* with a
lingering mono voice, releases it and deletes it from the map. -/
def Synth.setMono (s : Synth) (enabled : Bool) : Synth :=
  let s1 := { s with params := { s.params with mono := enabled } }
  if !enabled then
    match s1.monoVoiceId with
    | some mid =>
      match alookup s1.voices mid with
      | some v =>
        { s1 with voices := aerase s1.voices mid,
                  released := s1.released ++ [mid],
                  graveyard := s1.graveyard ++ [Voice.release v],
                  monoVoiceId := none }
      | none => { s1 with voices := aerase s1.voices mid, monoVoiceId := none }
    | none => s1
  else s1

/-- `_createVoice(freq, vel)`: fresh id `++voiceCounter`, voice inserted
into the map, then `voice.trigger(vel)`. -/
noncomputable def Synth._createVoice (s : Synth) (freq : ℝ) (vel : ℚ) : Synth × ℕ :=
  let id := s.voiceCounter + 1
  let voice := (Voice.init id freq).trigger vel
  ({ s with voiceCounter := id, voices := s.voices ++ [(id, voice)] }, id)

/-- Monophonic branch of `noteOn` (part_003 lines 178-192). -/
noncomputable def Synth.noteOnMono (s : Synth) (midiNote : ℕ) (freq : ℝ) (vel : ℚ) : Synth :=
  match s.monoVoiceId with
  | none =>
    let p := s._createVoice freq vel
    { p.1 with monoVoiceId := some p.2,
               pressedNotes := setAdd p.1.pressedNotes midiNote }
  | some mid =>
    let retrig := fun (w : Voice) => (w.setFrequencySmooth freq s.params.glideMs).trigger vel
    let s1 :=
      match alookup s.voices mid with
      | some _ => { s with voices := aupdate retrig s.voices mid }
      | none => s
    { s1 with pressedNotes := setAdd s1.pressedNotes midiNote }

/-- First half of the polyphonic branch of `noteOn` (part_003 lines
194-199): always create a new voice and push it on the note's stack,
creating the stack entry if absent. -/
noncomputable def Synth.insertVoiceAndStack (s : Synth) (midiNote : ℕ) (freq : ℝ) (vel : ℚ) : Synth :=
  let p := s._createVoice freq vel
  let s1 := p.1
  let ns0 := if (alookup s1.noteStacks midiNote).isNone
             then s1.noteStacks ++ [(midiNote, [])] else s1.noteStacks
  { s1 with noteStacks := aupdate (fun st => st ++ [p.2]) ns0 midiNote }

/-- Second half of the polyphonic branch (part_003 lines 201-213): if
`voices.size > maxVoices`, steal — release the voice stored under the
first key of the map (`[...this.voices.keys()][0]`), delete it, and
splice its id out of every stack (stacks are not deleted here). -/
def Synth.stealOldest (s : Synth) : Synth :=
  if s.voices.length > s.params.maxVoices then
    match s.voices.head? with
    | some kv =>
      { s with
        voices := aerase s.voices kv.1,
        noteStacks := s.noteStacks.map (fun q => (q.1, q.2.erase kv.1)),
        released := s.released ++ [kv.1],
        graveyard := s.graveyard ++ [Voice.release kv.2] }
    | none => s
  else s

/-- Polyphonic branch of `noteOn` (part_003 lines 194-213). -/
noncomputable def Synth.noteOnPoly (s : Synth) (midiNote : ℕ) (freq : ℝ) (vel : ℚ) : Synth :=
  (s.insertVoiceAndStack midiNote freq vel).stealOldest

/-- `noteOn(midiNote, velocity = 100)`. -/
noncomputable def Synth.noteOn (s : Synth) (midiNote : ℕ) (velocity : ℚ) : Synth :=
  let freq := mtof midiNote
  let vel := clampQ (velocity / 127) 0 1
  if s.params.mono then s.noteOnMono midiNote freq vel
  else s.noteOnPoly midiNote freq vel

/-- Monophonic branch of `noteOff` (part_003 lines 217-224): remove the
note from `pressedNotes`; if none remain and a mono voice exists,
release it (it is *not* removed from the map here). -/
def Synth.noteOffMono (s : Synth) (midiNote : ℕ) : Synth :=
  let pressed := s.pressedNotes.erase midiNote
  let s1 := { s with pressedNotes := pressed }
  if pressed.isEmpty then
    match s1.monoVoiceId with
    | some mid =>
      match alookup s1.voices mid with
      | some _ =>
        { s1 with voices := aupdate Voice.release s1.voices mid,
                  released := s1.released ++ [mid] }
      | none => s1
    | none => s1
  else s1

/-- Polyphonic branch of `noteOff` (part_003 lines 227-233): pop the
most recent id from the stack (the pop persists even if the voice is
missing) and release that voice.  The empty stack entry is *not*
deleted here. -/
def Synth.noteOffPoly (s : Synth) (midiNote : ℕ) : Synth :=
  match alookup s.noteStacks midiNote with
  | none => s
  | some st =>
    if st.isEmpty then s
    else
      match st.getLast? with
      | none => s
      | some vid =>
        let s1 := { s with noteStacks := aupdate List.dropLast s.noteStacks midiNote }
        match alookup s1.voices vid with
        | some _ =>
          { s1 with voices := aupdate Voice.release s1.voices vid,
                    released := s1.released ++ [vid] }
        | none => s1

def Synth.noteOff (s : Synth) (midiNote : ℕ) : Synth :=
  if s.params.mono then s.noteOffMono midiNote else s.noteOffPoly midiNote

/-- The `voice.onEnded` callback installed in `_createVoice` (fires after
the release tail): delete the voice, splice its id out of every stack,
delete every stack that is empty afterwards, clear `monoVoiceId` if it
pointed at this voice. -/
def Synth.endedCallback (s : Synth) (vid : ℕ) : Synth :=
  { s with
    voices := aerase s.voices vid,
    noteStacks := (s.noteStacks.map (fun q => (q.1, q.2.erase vid))).filter
      (fun q => ¬ q.2.isEmpty),
    monoVoiceId := if s.monoVoiceId = some vid then none else s.monoVoiceId,
    graveyard := s.graveyard ++
      (match alookup s.voices vid with
       | some v => [v]
       | none => []) }

/-- External events fed to the engine: note-on, note-off, and the
asynchronous per-voice `onEnded` disposal callback. -/
inductive Ev
  | noteOnEv (note : ℕ) (velocity : ℚ) : Ev
  | noteOffEv (note : ℕ) : Ev
  | endedEv (vid : ℕ) : Ev

noncomputable def Synth.step (s : Synth) : Ev → Synth
  | Ev.noteOnEv n v => s.noteOn n v
  | Ev.noteOffEv n => s.noteOff n
  | Ev.endedEv vid => s.endedCallback vid

noncomputable def Synth.run (s : Synth) (evs : List Ev) : Synth :=
  evs.foldl Synth.step s

/-- `setMono(true)` applied to a fresh engine: the monophonic machine's
initial state. -/
def monoInit : Synth := Synth.init.setMono true

/-! ### Classic `SynthVoice` (src/synth.js) -/

/-- The amplitude-envelope state of the classic `SynthVoice`
(`this.out.gain` and the `opts` it schedules with). -/
structure SynthVoiceC where
  gainValue : ℚ
  gainSched : List GainCmd
  attack : ℚ
  releaseDur : ℚ

/-- `SynthVoice.prototype.retrigger(freq, velocity)` (src/synth.js lines
78-97), amplitude part: `vel = clamp(velocity || 100, 0, 127)`,
`peak = (vel/127)*0.35`, then cancel, *hard reset to 0.0001*, ramp to
`peak` over `attack`, ramp to `peak*0.95` over a further 0.05 s.  The
current gain value is never read. -/
def SynthVoiceC.retrigger (v : SynthVoiceC) (velocity : Option ℚ) : SynthVoiceC :=
  let vel := clampQ (jsOr velocity 100) 0 127
  let peak := vel / 127 * (35/100)
  { v with
    gainSched := v.gainSched ++
      [GainCmd.cancel, GainCmd.setValue (1/10000),
       GainCmd.rampTo peak v.attack,
       GainCmd.rampTo (peak * (95/100)) (v.attack + 5/100)],
    gainValue := peak * (95/100) }

/-- First value forced onto the gain param by a command list (the origin
of the newly scheduled envelope). -/
def rampOrigin (cmds : List GainCmd) : Option ℚ :=
  cmds.findSome? fun c =>
    match c with
    | GainCmd.setValue x => some x
    | _ => none

/-! ### First `main.js` variant (IIFE, poly map of voice stacks) -/

namespace Main1

/-- State of the first main.js variant: `voices` maps a note to an array
of voice objects (modelled as integer tags); `stopped` is the trace of
`v.stop()` calls. -/
structure St where
  voices : List (ℕ × List ℕ)
  counter : ℕ
  stopped : List ℕ

def initSt : St := { voices := [], counter := 0, stopped := [] }

/-- `pushNoteVoice(note, voice)`: `stack = voices.get(note) || []`,
push, `voices.set(note, stack)`. -/
def pushNoteVoice (st : St) (note v : ℕ) : St :=
  match alookup st.voices note with
  | some _ => { st with voices := aupdate (fun stck => stck ++ [v]) st.voices note }
  | none => { st with voices := st.voices ++ [(note, [v])] }

/-- `noteOnPoly(note, velocity)`: fresh `WebInstrument.Synth`, started,
pushed onto the note's stack. -/
def noteOnPoly (st : St) (note : ℕ) : St :=
  let v := st.counter + 1
  pushNoteVoice { st with counter := v } note v

/-- `noteOffPoly(note)` (main.js lines 89-96): pop the most recent voice
of the stack, stop it, and delete the note key when the stack empties. -/
def noteOffPoly (st : St) (note : ℕ) : St :=
  match alookup st.voices note with
  | none => st
  | some stack =>
    if stack.isEmpty then st
    else
      match stack.getLast? with
      | none => st
      | some v =>
        let rest := stack.dropLast
        if rest.isEmpty then
          { st with voices := aerase st.voices note, stopped := st.stopped ++ [v] }
        else
          { st with voices := aupdate (fun _ => rest) st.voices note,
                    stopped := st.stopped ++ [v] }

/-- The inline conversion in `midi.onNoteOn` (main.js line 185):
`440 * Math.pow(2, (note - 69)/12)`. -/
noncomputable def hzOf (note : ℕ) : ℝ := 440 * (2 : ℝ) ^ (((note : ℝ) - 69) / 12)

end Main1

/-! ### Second `main.js` variant (module, one voice per note) -/

namespace Main2

/-- State of the second main.js variant: `voices` maps a note to the one
`Synth` sounding for it (modelled as an integer tag); `stopped` is the
trace of `v.stop()` calls; `counter` counts `new Synth(...)`. -/
structure St where
  voices : List (ℕ × ℕ)
  counter : ℕ
  stopped : List ℕ

def initSt : St := { voices := [], counter := 0, stopped := [] }

/-- `midi.onNoteOff` (second variant): stop and delete the note's voice
if present. -/
def onNoteOff (st : St) (note : ℕ) : St :=
  match alookup st.voices note with
  | some v => { st with voices := aerase st.voices note, stopped := st.stopped ++ [v] }
  | none => st

/-- `midi.onNoteOn` (main.js lines 338-372): `velocity === 0` is handled
as a note-off (stop + delete, no voice created); otherwise any existing
voice for the note is stopped and replaced by a fresh `Synth`. -/
def onNoteOn (st : St) (note : ℕ) (velocity : ℚ) : St :=
  if velocity = 0 then
    match alookup st.voices note with
    | some v => { st with voices := aerase st.voices note, stopped := st.stopped ++ [v] }
    | none => st
  else
    let st1 :=
      match alookup st.voices note with
      | some v => { st with voices := aerase st.voices note, stopped := st.stopped ++ [v] }
      | none => st
    let tag := st1.counter + 1
    { st1 with counter := tag, voices := st1.voices ++ [(note, tag)] }

end Main2

/-! ### Classic `Synth`/`FX` (src/unnamed/part_004) and `SimpleFX` (part_002) -/

namespace Classic

/-- `Synth.prototype.mtof` (part_004 lines 68-70):
`440 * Math.pow(2, (note - 69) / 12)`. -/
noncomputable def Synth_mtof (note : ℕ) : ℝ := 440 * (2 : ℝ) ^ (((note : ℝ) - 69) / 12)

/-- `FX` constructor (part_004): `this.delayFb.gain.value = 0.35`; the
rack exposes no feedback setter. -/
def FX_delayFb : ℚ := 35/100

/-- `SimpleFX` constructor (part_002): `this.delayFB.gain.value = 0.35`,
likewise never reassigned. -/
def SimpleFX_delayFB : ℚ := 35/100

end Classic

/-! ### Predicates and observables used by the theorems -/

/-- Well-formedness of the engine state.  Reachable states keep the
voice map in creation order with strictly increasing ids: ids are
handed out by `++this.voiceCounter`, so JS `Map` insertion order,
id order and creation-time order coincide — this is how the code
realises the spec's "earliest creation time, ties broken by lowest id"
ordering.  Stacks hold pairwise-distinct ids of live voices. -/
def WF (s : Synth) : Prop :=
  List.Pairwise (· < ·) (s.voices.map Prod.fst)
  ∧ (∀ k ∈ s.voices.map Prod.fst, k ≤ s.voiceCounter)
  ∧ (∀ q ∈ s.noteStacks, q.2.Nodup ∧ ∀ i ∈ q.2, i ∈ s.voices.map Prod.fst)
  ∧ (s.noteStacks.map Prod.fst).Nodup

/-- The ids of the live voices right after the unconditional insertion a
polyphonic note-on performs (insertion order = creation order; the new
voice gets id `voiceCounter + 1`). -/
def Synth.insertedLiveIds (s : Synth) : List ℕ :=
  s.voices.map Prod.fst ++ [s.voiceCounter + 1]

/-- Shape of a reachable monophonic state: either no voice and no mono
voice id, or exactly one voice, pointed at by `monoVoiceId`. -/
def MonoShape (s : Synth) : Prop :=
  (s.voices = [] ∧ s.monoVoiceId = none)
  ∨ (∃ vid v, s.voices = [(vid, v)] ∧ s.monoVoiceId = some vid)

/-- Run of the monophonic machine: `setMono(true)` on a fresh engine,
then a sequence of events. -/
noncomputable def monoRun (evs : List Ev) : Synth := monoInit.run evs

/-- Run of the polyphonic machine from a fresh engine (`mono` is false
in the constructor's parameter literal). -/
noncomputable def polyRun (evs : List Ev) : Synth := Synth.init.run evs

/-- The event sequence used to exhibit per-note stacking without any
forced release: sixteen note-ons for the same note 60. -/
def sixteenOns : List Ev := List.replicate 16 (Ev.noteOnEv 60 100)

/-! ### Association-list lemmas -/

theorem alookup_append {α : Type} (l₁ l₂ : List (ℕ × α)) (k : ℕ) :
    alookup (l₁ ++ l₂) k =
      match alookup l₁ k with
      | some v => some v
      | none => alookup l₂ k := by
  induction l₁ with
  | nil => simp [alookup]
  | cons p t ih =>
    by_cases h : p.1 = k <;> simp [alookup, h, ih]

theorem alookup_eq_none {α : Type} {l : List (ℕ × α)} {k : ℕ} :
    alookup l k = none ↔ k ∉ l.map Prod.fst := by
  induction l with
  | nil => simp [alookup]
  | cons p t ih =>
    obtain ⟨a, b⟩ := p
    by_cases h : a = k
    · subst h
      simp [alookup]
    · simp [alookup, h, ih, Ne.symm h]

theorem alookup_mem {α : Type} {l : List (ℕ × α)} {k : ℕ} {v : α}
    (h : alookup l k = some v) : (k, v) ∈ l := by
  induction l with
  | nil => simp [alookup] at h
  | cons p t ih =>
    obtain ⟨a, b⟩ := p
    by_cases hk : a = k
    · subst hk
      simp [alookup] at h
      simp [h]
    · simp [alookup, hk] at h
      exact List.mem_cons_of_mem _ (ih h)

theorem alookup_aupdate_self {α : Type} (f : α → α) (l : List (ℕ × α)) (k : ℕ) :
    alookup (aupdate f l k) k = (alookup l k).map f := by
  induction l with
  | nil => simp [alookup, aupdate]
  | cons p t ih =>
    by_cases h : p.1 = k <;> simp [alookup, aupdate, h, ih]

theorem alookup_aupdate_ne {α : Type} (f : α → α) (l : List (ℕ × α)) {k k' : ℕ}
    (h : k' ≠ k) : alookup (aupdate f l k) k' = alookup l k' := by
  induction l with
  | nil => simp [alookup, aupdate]
  | cons p t ih =>
    obtain ⟨a, b⟩ := p
    by_cases hk : a = k
    · subst hk
      simp [alookup, aupdate, Ne.symm h]
    · by_cases hk' : a = k' <;> simp [alookup, aupdate, hk, hk', ih, h]

theorem map_fst_aupdate {α : Type} (f : α → α) (l : List (ℕ × α)) (k : ℕ) :
    (aupdate f l k).map Prod.fst = l.map Prod.fst := by
  induction l with
  | nil => simp [aupdate]
  | cons p t ih =>
    by_cases h : p.1 = k <;> simp [aupdate, h, ih]

theorem mem_aupdate {α : Type} {f : α → α} {l : List (ℕ × α)} {k : ℕ} {q : ℕ × α}
    (h : q ∈ aupdate f l k) : q ∈ l ∨ ∃ v, (k, v) ∈ l ∧ q = (k, f v) := by
  induction l with
  | nil => simp [aupdate] at h
  | cons p t ih =>
    by_cases hk : p.1 = k
    · subst hk
      simp [aupdate] at h
      rcases h with h | h
      · right
        exact ⟨p.2, List.mem_cons_self _ _, h⟩
      · exact Or.inl (List.mem_cons_of_mem _ h)
    · simp [aupdate, hk] at h
      rcases h with h | h
      · exact Or.inl (by simp [h])
      · rcases ih h with h' | ⟨v, hv, hq⟩
        · exact Or.inl (List.mem_cons_of_mem _ h')
        · exact Or.inr ⟨v, List.mem_cons_of_mem _ hv, hq⟩

theorem aerase_sublist {α : Type} (l : List (ℕ × α)) (k : ℕ) :
    List.Sublist (aerase l k) l := by
  induction l with
  | nil => simp [aerase]
  | cons p t ih =>
    obtain ⟨a, b⟩ := p
    by_cases h : a = k
    · simp [aerase, h]
    · simpa [aerase, h] using ih.cons₂ (a, b)

theorem map_fst_aerase {α : Type} (l : List (ℕ × α)) (k : ℕ) :
    (aerase l k).map Prod.fst = (l.map Prod.fst).erase k := by
  induction l with
  | nil => simp [aerase]
  | cons p t ih =>
    by_cases h : p.1 = k
    · simp [aerase, h, List.erase_cons]
    · simp [aerase, h, List.erase_cons, ih]

theorem alookup_aerase_ne {α : Type} (l : List (ℕ × α)) {k k' : ℕ} (h : k' ≠ k) :
    alookup (aerase l k) k' = alookup l k' := by
  induction l with
  | nil => simp [aerase]
  | cons p t ih =>
    obtain ⟨a, b⟩ := p
    by_cases hk : a = k
    · subst hk
      simp [aerase, alookup, Ne.symm h]
    · by_cases hk' : a = k' <;> simp [aerase, alookup, hk, hk', ih, h]

theorem mem_map_fst_of_mem_aerase {α : Type} {l : List (ℕ × α)} {k k' : ℕ}
    (h : k' ∈ (aerase l k).map Prod.fst) : k' ∈ l.map Prod.fst :=
  ((aerase_sublist l k).map Prod.fst).subset h

theorem length_aerase_of_mem {α : Type} {l : List (ℕ × α)} {k : ℕ}
    (h : k ∈ l.map Prod.fst) : (aerase l k).length + 1 = l.length := by
  induction l with
  | nil => simp at h
  | cons p t ih =>
    obtain ⟨a, b⟩ := p
    by_cases hk : a = k
    · simp [aerase, hk]
    · have ht : k ∈ t.map Prod.fst := by
        simp at h ⊢
        rcases h with h | h
        · exact absurd h.symm hk
        · exact h
      simp [aerase, hk, ih ht]

theorem WF_init : WF Synth.init := by
  refine ⟨?_, ?_, ?_, ?_⟩ <;> simp [Synth.init, WF]

/-! #### Characterisation of each operation by case -/

theorem noteOn_eq_mono {s : Synth} (h : s.params.mono = true) (n : ℕ) (vel : ℚ) :
    s.noteOn n vel = s.noteOnMono n (mtof n) (clampQ (vel / 127) 0 1) := by
  simp [Synth.noteOn, h]

theorem noteOn_eq_poly {s : Synth} (h : s.params.mono = false) (n : ℕ) (vel : ℚ) :
    s.noteOn n vel =
      (s.insertVoiceAndStack n (mtof n) (clampQ (vel / 127) 0 1)).stealOldest := by
  simp [Synth.noteOn, h, Synth.noteOnPoly]

theorem noteOff_eq_mono {s : Synth} (h : s.params.mono = true) (n : ℕ) :
    s.noteOff n = s.noteOffMono n := by
  simp [Synth.noteOff, h]

theorem noteOff_eq_poly {s : Synth} (h : s.params.mono = false) (n : ℕ) :
    s.noteOff n = s.noteOffPoly n := by
  simp [Synth.noteOff, h]

theorem insertVoiceAndStack_eq (s : Synth) (n : ℕ) (freq : ℝ) (vel : ℚ) :
    s.insertVoiceAndStack n freq vel =
      { s with
        voiceCounter := s.voiceCounter + 1,
        voices := s.voices ++
          [(s.voiceCounter + 1, (Voice.init (s.voiceCounter + 1) freq).trigger vel)],
        noteStacks := aupdate (fun st => st ++ [s.voiceCounter + 1])
          (if (alookup s.noteStacks n).isNone
           then s.noteStacks ++ [(n, [])] else s.noteStacks) n } := rfl

theorem stealOldest_eq_of_le {s : Synth} (h : ¬ s.voices.length > s.params.maxVoices) :
    s.stealOldest = s := by
  simp [Synth.stealOldest, h]

theorem stealOldest_eq_of_gt {s : Synth} {k0 : ℕ} {v0 : Voice} {t : List (ℕ × Voice)}
    (h : s.voices.length > s.params.maxVoices) (hv : s.voices = (k0, v0) :: t) :
    s.stealOldest =
      { s with
        voices := t,
        noteStacks := s.noteStacks.map (fun q => (q.1, q.2.erase k0)),
        released := s.released ++ [k0],
        graveyard := s.graveyard ++ [Voice.release v0] } := by
  unfold Synth.stealOldest
  rw [if_pos h, hv]
  simp [aerase]

theorem noteOnMono_eq_none {s : Synth} (h : s.monoVoiceId = none) (n : ℕ)
    (freq : ℝ) (vel : ℚ) :
    s.noteOnMono n freq vel =
      { s with
        voiceCounter := s.voiceCounter + 1,
        voices := s.voices ++
          [(s.voiceCounter + 1, (Voice.init (s.voiceCounter + 1) freq).trigger vel)],
        monoVoiceId := some (s.voiceCounter + 1),
        pressedNotes := setAdd s.pressedNotes n } := by
  simp [Synth.noteOnMono, h, Synth._createVoice]

theorem noteOnMono_eq_found {s : Synth} {mid : ℕ} {v : Voice}
    (h : s.monoVoiceId = some mid) (hv : alookup s.voices mid = some v)
    (n : ℕ) (freq : ℝ) (vel : ℚ) :
    s.noteOnMono n freq vel =
      { s with
        voices := aupdate
          (fun w => (w.setFrequencySmooth freq s.params.glideMs).trigger vel) s.voices mid,
        pressedNotes := setAdd s.pressedNotes n } := by
  simp [Synth.noteOnMono, h, hv]

theorem noteOnMono_eq_missing {s : Synth} {mid : ℕ}
    (h : s.monoVoiceId = some mid) (hv : alookup s.voices mid = none)
    (n : ℕ) (freq : ℝ) (vel : ℚ) :
    s.noteOnMono n freq vel = { s with pressedNotes := setAdd s.pressedNotes n } := by
  simp [Synth.noteOnMono, h, hv]

theorem noteOffMono_eq_held {s : Synth} (n : ℕ)
    (h : ¬ (s.pressedNotes.erase n).isEmpty) :
    s.noteOffMono n = { s with pressedNotes := s.pressedNotes.erase n } := by
  simp [Synth.noteOffMono, h]

theorem noteOffMono_eq_lastoff {s : Synth} {mid : ℕ} {v : Voice} (n : ℕ)
    (h : (s.pressedNotes.erase n).isEmpty) (hm : s.monoVoiceId = some mid)
    (hv : alookup s.voices mid = some v) :
    s.noteOffMono n =
      { s with
        pressedNotes := s.pressedNotes.erase n,
        voices := aupdate Voice.release s.voices mid,
        released := s.released ++ [mid] } := by
  simp [Synth.noteOffMono, h, hm, hv]

theorem noteOffMono_eq_novoice {s : Synth} (n : ℕ)
    (h : (s.pressedNotes.erase n).isEmpty)
    (hm : s.monoVoiceId = none ∨ (∃ mid, s.monoVoiceId = some mid ∧ alookup s.voices mid = none)) :
    s.noteOffMono n = { s with pressedNotes := s.pressedNotes.erase n } := by
  rcases hm with hm | ⟨mid, hm, hv⟩
  · simp [Synth.noteOffMono, h, hm]
  · simp [Synth.noteOffMono, h, hm, hv]

theorem noteOffPoly_eq_nostack {s : Synth} (n : ℕ)
    (h : alookup s.noteStacks n = none) : s.noteOffPoly n = s := by
  simp [Synth.noteOffPoly, h]

theorem noteOffPoly_eq_empty {s : Synth} {st : List ℕ} (n : ℕ)
    (h : alookup s.noteStacks n = some st) (he : st.isEmpty) :
    s.noteOffPoly n = s := by
  simp [Synth.noteOffPoly, h, he]

theorem noteOffPoly_eq_pop {s : Synth} {st : List ℕ} {vid : ℕ} {v : Voice} (n : ℕ)
    (h : alookup s.noteStacks n = some st) (he : ¬ st.isEmpty)
    (hl : st.getLast? = some vid) (hv : alookup s.voices vid = some v) :
    s.noteOffPoly n =
      { s with
        noteStacks := aupdate List.dropLast s.noteStacks n,
        voices := aupdate Voice.release s.voices vid,
        released := s.released ++ [vid] } := by
  simp [Synth.noteOffPoly, h, he, hl, hv]

theorem noteOffPoly_eq_pop_novoice {s : Synth} {st : List ℕ} {vid : ℕ} (n : ℕ)
    (h : alookup s.noteStacks n = some st) (he : ¬ st.isEmpty)
    (hl : st.getLast? = some vid) (hv : alookup s.voices vid = none) :
    s.noteOffPoly n = { s with noteStacks := aupdate List.dropLast s.noteStacks n } := by
  simp [Synth.noteOffPoly, h, he, hl, hv]

theorem WF_insertVoiceAndStack {s : Synth} (h : WF s) (n : ℕ) (freq : ℝ) (vel : ℚ) :
    WF (s.insertVoiceAndStack n freq vel) := by
  obtain ⟨h1, h2, h3, h4⟩ := h
  have hkeys : (s.insertVoiceAndStack n freq vel).voices.map Prod.fst
      = s.voices.map Prod.fst ++ [s.voiceCounter + 1] := by
    simp [Synth.insertVoiceAndStack, Synth._createVoice]
  have hcnt : (s.insertVoiceAndStack n freq vel).voiceCounter = s.voiceCounter + 1 := rfl
  refine ⟨?_, ?_, ?_, ?_⟩
  · rw [hkeys]
    rw [List.pairwise_append]
    refine ⟨h1, by simp, ?_⟩
    intro a ha b hb
    simp at hb
    subst hb
    exact Nat.lt_succ_of_le (h2 a ha)
  · rw [hkeys, hcnt]
    intro k hk
    rcases List.mem_append.mp hk with hk | hk
    · exact Nat.le_succ_of_le (h2 k hk)
    · simp at hk
      simp [hk]
  · intro q hq
    have hq' : q ∈ aupdate (fun st => st ++ [s.voiceCounter + 1])
        (if (alookup s.noteStacks n).isNone then s.noteStacks ++ [(n, [])] else s.noteStacks) n := by
      simpa [Synth.insertVoiceAndStack, Synth._createVoice] using hq
    have hmem0 : ∀ r, r ∈ (if (alookup s.noteStacks n).isNone
        then s.noteStacks ++ [(n, [])] else s.noteStacks) →
        r ∈ s.noteStacks ∨ r = (n, ([] : List ℕ)) := by
      intro r hr
      by_cases hc : (alookup s.noteStacks n).isNone <;> simp [hc] at hr
      · rcases hr with hr | hr
        · exact Or.inl hr
        · exact Or.inr (by simp [hr])
      · exact Or.inl hr
    have base : ∀ r, r ∈ s.noteStacks ∨ r = (n, ([] : List ℕ)) →
        r.2.Nodup ∧ ∀ i ∈ r.2, i ∈ s.voices.map Prod.fst := by
      intro r hr
      rcases hr with hr | hr
      · exact h3 r hr
      · simp [hr]
    rcases mem_aupdate hq' with hmem | ⟨st, hst, hqeq⟩
    · obtain ⟨hnd, hsub⟩ := base _ (hmem0 _ hmem)
      refine ⟨hnd, fun i hi => ?_⟩
      rw [hkeys]
      exact List.mem_append_left _ (hsub i hi)
    · obtain ⟨hnd, hsub⟩ := base _ (hmem0 _ hst)
      have hfresh : s.voiceCounter + 1 ∉ st := by
        intro hc
        exact Nat.not_succ_le_self s.voiceCounter (h2 _ (hsub _ hc))
      subst hqeq
      constructor
      · have hnd2 : (st ++ [s.voiceCounter + 1]).Nodup := by
          refine List.Nodup.append hnd (by simp) ?_
          intro a ha hb
          simp at hb
          subst hb
          exact hfresh ha
        exact hnd2
      · intro i hi
        rw [hkeys]
        simp at hi
        rcases hi with hi | hi
        · exact List.mem_append_left _ (hsub i hi)
        · simp [hi]
  · have hsk : (s.insertVoiceAndStack n freq vel).noteStacks.map Prod.fst
        = (if (alookup s.noteStacks n).isNone
           then s.noteStacks ++ [(n, [])] else s.noteStacks).map Prod.fst := by
      simp [Synth.insertVoiceAndStack, Synth._createVoice, map_fst_aupdate]
    rw [hsk]
    by_cases hc : (alookup s.noteStacks n).isNone
    · have hnotin : n ∉ s.noteStacks.map Prod.fst := by
        rw [← alookup_eq_none]
        simpa [Option.isNone_iff_eq_none] using hc
      simp [hc]
      rw [List.nodup_append]
      exact ⟨h4, by simp, by simpa using fun hn => hnotin hn⟩
    · simpa [hc] using h4

theorem WF_stealOldest {s : Synth} (h : WF s) : WF s.stealOldest := by
  obtain ⟨h1, h2, h3, h4⟩ := h
  unfold Synth.stealOldest
  by_cases hc : s.voices.length > s.params.maxVoices
  · rw [if_pos hc]
    cases hv : s.voices with
    | nil => exact absurd hc (by simp [hv])
    | cons kv t =>
      obtain ⟨k0, v0⟩ := kv
      have hkeys : s.voices.map Prod.fst = k0 :: t.map Prod.fst := by simp [hv]
      have h1' := hkeys ▸ h1
      have herase : aerase ((k0, v0) :: t) k0 = t := by simp [aerase]
      simp only [List.head?_cons, herase]
      refine ⟨?_, ?_, ?_, ?_⟩
      · exact (List.pairwise_cons.mp h1').2
      · intro k hk
        refine h2 k ?_
        rw [hkeys]
        exact List.mem_cons_of_mem _ hk
      · intro q hq
        have hq1 : q ∈ s.noteStacks.map (fun r => (r.1, r.2.erase k0)) := hq
        simp only [List.mem_map] at hq1
        obtain ⟨r, hr, hqeq⟩ := hq1
        obtain ⟨hnd, hsub⟩ := h3 r hr
        subst hqeq
        refine ⟨List.Nodup.erase _ hnd, ?_⟩
        intro i hi
        have hist : i ∈ r.2 := ((r.2.erase_sublist k0).subset) hi
        have hine : i ≠ k0 := by
          intro hik
          subst hik
          exact (List.Nodup.not_mem_erase hnd) hi
        have hmem : i ∈ s.voices.map Prod.fst := hsub i hist
        rw [hkeys] at hmem
        show i ∈ t.map Prod.fst
        rcases List.mem_cons.mp hmem with hh | hh
        · exact absurd hh hine
        · exact hh
      · show ((s.noteStacks.map (fun q => (q.1, q.2.erase k0))).map Prod.fst).Nodup
        simpa using h4
  · rw [if_neg hc]
    exact ⟨h1, h2, h3, h4⟩

theorem WF_congr {s s' : Synth} (h : WF s) (hv : s'.voices = s.voices)
    (hns : s'.noteStacks = s.noteStacks) (hc : s'.voiceCounter = s.voiceCounter) :
    WF s' := by
  obtain ⟨h1, h2, h3, h4⟩ := h
  refine ⟨?_, ?_, ?_, ?_⟩
  · rw [hv]
    exact h1
  · rw [hv, hc]
    exact h2
  · rw [hns, hv]
    exact h3
  · rw [hns]
    exact h4

theorem WF_voices_append_fresh {s : Synth} (h : WF s) (v : Voice) :
    List.Pairwise (· < ·) ((s.voices ++ [(s.voiceCounter + 1, v)]).map Prod.fst)
    ∧ ∀ k ∈ (s.voices ++ [(s.voiceCounter + 1, v)]).map Prod.fst, k ≤ s.voiceCounter + 1 := by
  obtain ⟨h1, h2, _, _⟩ := h
  constructor
  · rw [List.map_append, List.pairwise_append]
    refine ⟨h1, by simp, ?_⟩
    intro a ha b hb
    simp at hb
    subst hb
    exact Nat.lt_succ_of_le (h2 a ha)
  · intro k hk
    rw [List.map_append] at hk
    rcases List.mem_append.mp hk with hk | hk
    · exact Nat.le_succ_of_le (h2 k hk)
    · simp at hk
      simp [hk]

theorem WF_aupdate_voices {s : Synth} (h : WF s) (f : Voice → Voice) (mid : ℕ) :
    WF { s with voices := aupdate f s.voices mid } := by
  obtain ⟨h1, h2, h3, h4⟩ := h
  refine ⟨?_, ?_, ?_, h4⟩
  · show List.Pairwise (· < ·) ((aupdate f s.voices mid).map Prod.fst)
    rw [map_fst_aupdate]
    exact h1
  · show ∀ k ∈ (aupdate f s.voices mid).map Prod.fst, k ≤ s.voiceCounter
    rw [map_fst_aupdate]
    exact h2
  · intro q hq
    obtain ⟨hnd, hsub⟩ := h3 q hq
    refine ⟨hnd, fun i hi => ?_⟩
    show i ∈ (aupdate f s.voices mid).map Prod.fst
    rw [map_fst_aupdate]
    exact hsub i hi

theorem WF_noteOnMono {s : Synth} (h : WF s) (n : ℕ) (freq : ℝ) (vel : ℚ) :
    WF (s.noteOnMono n freq vel) := by
  cases hm : s.monoVoiceId with
  | none =>
    rw [noteOnMono_eq_none hm]
    obtain ⟨h1, h2, h3, h4⟩ := h
    obtain ⟨hp1, hp2⟩ := WF_voices_append_fresh ⟨h1, h2, h3, h4⟩
      ((Voice.init (s.voiceCounter + 1) freq).trigger vel)
    refine ⟨hp1, hp2, ?_, h4⟩
    intro q hq
    obtain ⟨hnd, hsub⟩ := h3 q hq
    refine ⟨hnd, fun i hi => ?_⟩
    show i ∈ (s.voices ++ [(s.voiceCounter + 1, _)]).map Prod.fst
    rw [List.map_append]
    exact List.mem_append_left _ (hsub i hi)
  | some mid =>
    cases hl : alookup s.voices mid with
    | none =>
      rw [noteOnMono_eq_missing hm hl]
      exact WF_congr h rfl rfl rfl
    | some v =>
      rw [noteOnMono_eq_found hm hl]
      exact WF_congr (WF_aupdate_voices h _ mid) rfl rfl rfl

theorem WF_noteOn {s : Synth} (h : WF s) (n : ℕ) (vel : ℚ) : WF (s.noteOn n vel) := by
  by_cases hm : s.params.mono
  · rw [noteOn_eq_mono hm]
    exact WF_noteOnMono h n (mtof n) (clampQ (vel / 127) 0 1)
  · rw [noteOn_eq_poly (by simpa using hm)]
    exact WF_stealOldest (WF_insertVoiceAndStack h n (mtof n) (clampQ (vel / 127) 0 1))

theorem WF_aupdate_stacks_dropLast {s : Synth} (h : WF s) (n : ℕ) :
    WF { s with noteStacks := aupdate List.dropLast s.noteStacks n } := by
  obtain ⟨h1, h2, h3, h4⟩ := h
  refine ⟨h1, h2, ?_, ?_⟩
  · intro q hq
    have hq' : q ∈ aupdate List.dropLast s.noteStacks n := hq
    rcases mem_aupdate hq' with hq'' | ⟨st', hst', hqeq⟩
    · exact h3 q hq''
    · obtain ⟨hnd, hsub⟩ := h3 _ hst'
      subst hqeq
      exact ⟨hnd.sublist (List.dropLast_sublist _),
        fun i hi => hsub i ((List.dropLast_sublist _).subset hi)⟩
  · show ((aupdate List.dropLast s.noteStacks n).map Prod.fst).Nodup
    rw [map_fst_aupdate]
    exact h4

theorem WF_noteOffMono {s : Synth} (h : WF s) (n : ℕ) : WF (s.noteOffMono n) := by
  by_cases hp : (s.pressedNotes.erase n).isEmpty
  · cases hmv : s.monoVoiceId with
    | none =>
      rw [noteOffMono_eq_novoice n hp (Or.inl hmv)]
      exact WF_congr h rfl rfl rfl
    | some mid =>
      cases hl : alookup s.voices mid with
      | none =>
        rw [noteOffMono_eq_novoice n hp (Or.inr ⟨mid, hmv, hl⟩)]
        exact WF_congr h rfl rfl rfl
      | some v =>
        rw [noteOffMono_eq_lastoff n hp hmv hl]
        exact WF_congr (WF_aupdate_voices h Voice.release mid) rfl rfl rfl
  · rw [noteOffMono_eq_held n hp]
    exact WF_congr h rfl rfl rfl

theorem WF_noteOffPoly {s : Synth} (h : WF s) (n : ℕ) : WF (s.noteOffPoly n) := by
  cases hst : alookup s.noteStacks n with
  | none =>
    rw [noteOffPoly_eq_nostack n hst]
    exact h
  | some st =>
    by_cases he : st.isEmpty
    · rw [noteOffPoly_eq_empty n hst he]
      exact h
    · cases hlast : st.getLast? with
      | none =>
        exact absurd (List.getLast?_isSome.mpr (by simpa using he)) (by simp [hlast])
      | some vid =>
        cases hl : alookup s.voices vid with
        | none =>
          rw [noteOffPoly_eq_pop_novoice n hst he hlast hl]
          exact WF_congr (WF_aupdate_stacks_dropLast h n) rfl rfl rfl
        | some v =>
          rw [noteOffPoly_eq_pop n hst he hlast hl]
          have h1 := WF_aupdate_stacks_dropLast h n
          have h2 := WF_aupdate_voices h1 Voice.release vid
          exact WF_congr h2 rfl rfl rfl

theorem WF_noteOff {s : Synth} (h : WF s) (n : ℕ) : WF (s.noteOff n) := by
  by_cases hm : s.params.mono
  · rw [noteOff_eq_mono hm]
    exact WF_noteOffMono h n
  · rw [noteOff_eq_poly (by simpa using hm)]
    exact WF_noteOffPoly h n

theorem WF_endedCallback {s : Synth} (h : WF s) (vid : ℕ) : WF (s.endedCallback vid) := by
  obtain ⟨h1, h2, h3, h4⟩ := h
  unfold Synth.endedCallback
  refine ⟨?_, ?_, ?_, ?_⟩
  · exact h1.sublist ((aerase_sublist s.voices vid).map Prod.fst)
  · intro k hk
    exact h2 k (mem_map_fst_of_mem_aerase hk)
  · intro q hq
    have hq1 : q ∈ s.noteStacks.map (fun r => (r.1, r.2.erase vid)) :=
      (List.filter_sublist _).subset hq
    simp only [List.mem_map] at hq1
    obtain ⟨r, hr, hqeq⟩ := hq1
    obtain ⟨hnd, hsub⟩ := h3 r hr
    subst hqeq
    refine ⟨List.Nodup.erase _ hnd, ?_⟩
    intro i hi
    have hist : i ∈ r.2 := (r.2.erase_sublist vid).subset hi
    have hine : i ≠ vid := by
      intro hik
      subst hik
      exact (List.Nodup.not_mem_erase hnd) hi
    rw [map_fst_aerase]
    exact (List.mem_erase_of_ne hine).mpr (hsub i hist)
  · refine List.Nodup.sublist ?_ h4
    have : List.Sublist ((s.noteStacks.map (fun q => (q.1, q.2.erase vid))).filter
        (fun q => ¬ q.2.isEmpty)) (s.noteStacks.map (fun q => (q.1, q.2.erase vid))) :=
      List.filter_sublist _
    have hmap := this.map Prod.fst
    simpa using hmap

theorem WF_step {s : Synth} (h : WF s) (e : Ev) : WF (s.step e) := by
  cases e with
  | noteOnEv n v => exact WF_noteOn h n v
  | noteOffEv n => exact WF_noteOff h n
  | endedEv vid => exact WF_endedCallback h vid

theorem WF_run {s : Synth} (h : WF s) (evs : List Ev) : WF (s.run evs) := by
  induction evs generalizing s with
  | nil => exact h
  | cons e t ih => exact ih (WF_step h e)

/-! ### Parameters are never touched by note events -/

theorem length_aupdate {α : Type} (f : α → α) (l : List (ℕ × α)) (k : ℕ) :
    (aupdate f l k).length = l.length := by
  have h := congrArg List.length (map_fst_aupdate f l k)
  simpa using h

theorem params_stealOldest (s : Synth) : s.stealOldest.params = s.params := by
  by_cases hc : s.voices.length > s.params.maxVoices
  · cases hv : s.voices with
    | nil => exact absurd hc (by simp [hv])
    | cons kv t =>
      obtain ⟨k0, v0⟩ := kv
      rw [stealOldest_eq_of_gt hc hv]
  · rw [stealOldest_eq_of_le hc]

theorem params_noteOnMono (s : Synth) (n : ℕ) (freq : ℝ) (vel : ℚ) :
    (s.noteOnMono n freq vel).params = s.params := by
  cases hm : s.monoVoiceId with
  | none => rw [noteOnMono_eq_none hm]
  | some mid =>
    cases hl : alookup s.voices mid with
    | none => rw [noteOnMono_eq_missing hm hl]
    | some v => rw [noteOnMono_eq_found hm hl]

theorem params_noteOffMono (s : Synth) (n : ℕ) : (s.noteOffMono n).params = s.params := by
  by_cases hp : (s.pressedNotes.erase n).isEmpty
  · cases hmv : s.monoVoiceId with
    | none => rw [noteOffMono_eq_novoice n hp (Or.inl hmv)]
    | some mid =>
      cases hl : alookup s.voices mid with
      | none => rw [noteOffMono_eq_novoice n hp (Or.inr ⟨mid, hmv, hl⟩)]
      | some v => rw [noteOffMono_eq_lastoff n hp hmv hl]
  · rw [noteOffMono_eq_held n hp]

theorem params_noteOffPoly (s : Synth) (n : ℕ) : (s.noteOffPoly n).params = s.params := by
  cases hst : alookup s.noteStacks n with
  | none => rw [noteOffPoly_eq_nostack n hst]
  | some st =>
    by_cases he : st.isEmpty
    · rw [noteOffPoly_eq_empty n hst he]
    · cases hlast : st.getLast? with
      | none =>
        exact absurd (List.getLast?_isSome.mpr (by simpa using he)) (by simp [hlast])
      | some vid =>
        cases hl : alookup s.voices vid with
        | none => rw [noteOffPoly_eq_pop_novoice n hst he hlast hl]
        | some v => rw [noteOffPoly_eq_pop n hst he hlast hl]

theorem params_step (s : Synth) (e : Ev) : (s.step e).params = s.params := by
  cases e with
  | noteOnEv n v =>
    show (s.noteOn n v).params = s.params
    by_cases hm : s.params.mono
    · rw [noteOn_eq_mono hm, params_noteOnMono]
    · rw [noteOn_eq_poly (by simpa using hm), params_stealOldest,
        insertVoiceAndStack_eq]
  | noteOffEv n =>
    show (s.noteOff n).params = s.params
    by_cases hm : s.params.mono
    · rw [noteOff_eq_mono hm, params_noteOffMono]
    · rw [noteOff_eq_poly (by simpa using hm), params_noteOffPoly]
  | endedEv vid => rfl

theorem params_run (s : Synth) (evs : List Ev) : (s.run evs).params = s.params := by
  induction evs generalizing s with
  | nil => rfl
  | cons e t ih =>
    show ((s.step e).run t).params = s.params
    rw [ih, params_step]

/-! ### The global polyphony cap (claim C2 machinery) -/

theorem cap_noteOn {s : Synth} (hm : s.params.mono = false)
    (h : s.voices.length ≤ s.params.maxVoices) (n : ℕ) (vel : ℚ) :
    (s.noteOn n vel).voices.length ≤ s.params.maxVoices := by
  rw [noteOn_eq_poly hm]
  set s1 := s.insertVoiceAndStack n (mtof n) (clampQ (vel / 127) 0 1) with hs1
  have hlen1 : s1.voices.length = s.voices.length + 1 := by
    rw [hs1, insertVoiceAndStack_eq]
    simp
  have hpar1 : s1.params = s.params := by rw [hs1, insertVoiceAndStack_eq]
  by_cases hc : s1.voices.length > s1.params.maxVoices
  · cases hv : s1.voices with
    | nil => exact absurd hc (by simp [hv])
    | cons kv t =>
      obtain ⟨k0, v0⟩ := kv
      rw [stealOldest_eq_of_gt hc hv]
      have : t.length + 1 = s.voices.length + 1 := by
        rw [← hlen1, hv]
        simp
      have ht : t.length = s.voices.length := by omega
      simpa [ht] using h
  · rw [stealOldest_eq_of_le hc]
    rw [hlen1, hpar1] at hc
    omega

theorem cap_noteOff {s : Synth} (h : s.voices.length ≤ s.params.maxVoices) (n : ℕ) :
    (s.noteOff n).voices.length ≤ s.params.maxVoices := by
  by_cases hm : s.params.mono
  · rw [noteOff_eq_mono hm]
    by_cases hp : (s.pressedNotes.erase n).isEmpty
    · cases hmv : s.monoVoiceId with
      | none =>
        rw [noteOffMono_eq_novoice n hp (Or.inl hmv)]
        exact h
      | some mid =>
        cases hl : alookup s.voices mid with
        | none =>
          rw [noteOffMono_eq_novoice n hp (Or.inr ⟨mid, hmv, hl⟩)]
          exact h
        | some v =>
          rw [noteOffMono_eq_lastoff n hp hmv hl]
          simpa [length_aupdate] using h
    · rw [noteOffMono_eq_held n hp]
      exact h
  · rw [noteOff_eq_poly (by simpa using hm)]
    cases hst : alookup s.noteStacks n with
    | none =>
      rw [noteOffPoly_eq_nostack n hst]
      exact h
    | some st =>
      by_cases he : st.isEmpty
      · rw [noteOffPoly_eq_empty n hst he]
        exact h
      · cases hlast : st.getLast? with
        | none =>
          exact absurd (List.getLast?_isSome.mpr (by simpa using he)) (by simp [hlast])
        | some vid =>
          cases hl : alookup s.voices vid with
          | none =>
            rw [noteOffPoly_eq_pop_novoice n hst he hlast hl]
            exact h
          | some v =>
            rw [noteOffPoly_eq_pop n hst he hlast hl]
            simpa [length_aupdate] using h

theorem cap_ended {s : Synth} (h : s.voices.length ≤ s.params.maxVoices) (vid : ℕ) :
    (s.endedCallback vid).voices.length ≤ s.params.maxVoices :=
  le_trans ((aerase_sublist s.voices vid).length_le) h

theorem cap_step {s : Synth} (hm : s.params.mono = false)
    (h : s.voices.length ≤ s.params.maxVoices) (e : Ev) :
    (s.step e).voices.length ≤ (s.step e).params.maxVoices := by
  rw [params_step]
  cases e with
  | noteOnEv n v => exact cap_noteOn hm h n v
  | noteOffEv n => exact cap_noteOff h n
  | endedEv vid => exact cap_ended h vid

theorem cap_run {s : Synth} (hm : s.params.mono = false)
    (h : s.voices.length ≤ s.params.maxVoices) (evs : List Ev) :
    (s.run evs).voices.length ≤ (s.run evs).params.maxVoices := by
  induction evs generalizing s with
  | nil => exact h
  | cons e t ih =>
    show ((s.step e).run t).voices.length ≤ ((s.step e).run t).params.maxVoices
    refine ih (s := s.step e) ?_ ?_
    · rw [params_step]
      exact hm
    · exact cap_step hm h e

/-! ### Which voice does the steal pick? (claim C1 machinery) -/

theorem release_stopped (v : Voice) : (Voice.release v).stopped = true := by
  unfold Voice.release
  by_cases h : v.stopped <;> simp [h]

theorem steal_characterisation (s : Synth) (hwf : WF s) (hm : s.params.mono = false)
    (n : ℕ) (vel : ℚ) (hsteal : s.voices.length + 1 > s.params.maxVoices) :
    ∃ stolen ov,
      (s.noteOn n vel).released = s.released ++ [stolen]
      ∧ stolen ∈ s.insertedLiveIds
      ∧ (∀ k ∈ s.insertedLiveIds, stolen ≤ k)
      ∧ (s.noteOn n vel).graveyard = s.graveyard ++ [Voice.release ov]
      ∧ (Voice.release ov).stopped = true
      ∧ alookup (s.noteOn n vel).voices stolen = none
      ∧ (∀ k, k ≠ stolen →
           alookup (s.noteOn n vel).voices k =
             alookup (s.insertVoiceAndStack n (mtof n) (clampQ (vel / 127) 0 1)).voices k) := by
  obtain ⟨h1, h2, h3, h4⟩ := hwf
  rw [noteOn_eq_poly hm]
  set nv := (Voice.init (s.voiceCounter + 1) (mtof n)).trigger (clampQ (vel / 127) 0 1) with hnv
  set s1 := s.insertVoiceAndStack n (mtof n) (clampQ (vel / 127) 0 1) with hs1
  have hvoices1 : s1.voices = s.voices ++ [(s.voiceCounter + 1, nv)] := by
    rw [hs1, insertVoiceAndStack_eq]
  have hrel1 : s1.released = s.released := by rw [hs1, insertVoiceAndStack_eq]
  have hgy1 : s1.graveyard = s.graveyard := by rw [hs1, insertVoiceAndStack_eq]
  have hpar1 : s1.params = s.params := by rw [hs1, insertVoiceAndStack_eq]
  have hc : s1.voices.length > s1.params.maxVoices := by
    rw [hvoices1, hpar1]
    simpa using hsteal
  cases hsv : s.voices with
  | nil =>
    refine ⟨s.voiceCounter + 1, nv, ?_⟩
    have hv1 : s1.voices = [(s.voiceCounter + 1, nv)] := by rw [hvoices1, hsv]; rfl
    rw [stealOldest_eq_of_gt hc hv1]
    refine ⟨by simp [hrel1], ?_, ?_, by simp [hgy1], release_stopped nv, ?_, ?_⟩
    · simp [Synth.insertedLiveIds, hsv]
    · intro k hk
      simp [Synth.insertedLiveIds, hsv] at hk
      simp [hk]
    · simp [alookup]
    · intro k hk
      rw [hv1]
      simp [alookup, Ne.symm hk]
  | cons kv t =>
    obtain ⟨k0, v0⟩ := kv
    refine ⟨k0, v0, ?_⟩
    have hv1 : s1.voices = (k0, v0) :: (t ++ [(s.voiceCounter + 1, nv)]) := by
      rw [hvoices1, hsv]
      rfl
    have hkeys : s.voices.map Prod.fst = k0 :: t.map Prod.fst := by simp [hsv]
    have h1' : List.Pairwise (· < ·) (k0 :: t.map Prod.fst) := hkeys ▸ h1
    have hk0lt : ∀ b ∈ t.map Prod.fst, k0 < b := (List.pairwise_cons.mp h1').1
    have hk0le : k0 ≤ s.voiceCounter := h2 k0 (by simp [hkeys])
    rw [stealOldest_eq_of_gt hc hv1]
    refine ⟨by simp [hrel1], ?_, ?_, by simp [hgy1], release_stopped v0, ?_, ?_⟩
    · simp [Synth.insertedLiveIds, hkeys]
    · intro k hk
      simp only [Synth.insertedLiveIds, hkeys] at hk
      rcases List.mem_append.mp hk with hk | hk
      · rcases List.mem_cons.mp hk with hk | hk
        · simp [hk]
        · exact le_of_lt (hk0lt k hk)
      · simp at hk
        subst hk
        exact le_of_lt (Nat.lt_succ_of_le hk0le)
    · rw [alookup_eq_none]
      simp only [List.map_append]
      intro hmem
      rcases List.mem_append.mp hmem with hmem | hmem
      · exact absurd (hk0lt k0 hmem) (lt_irrefl k0)
      · simp at hmem
        omega
    · intro k hk
      rw [hv1]
      simp [alookup, Ne.symm hk]

/-! ### The monophonic machine (claim C6 machinery) -/

theorem monoInit_eq : monoInit = { Synth.init with params := { initParams with mono := true } } := by
  simp [monoInit, Synth.setMono, Synth.init]

theorem monoInit_mono : monoInit.params.mono = true := by rw [monoInit_eq]

theorem MonoShape_monoInit : MonoShape monoInit := by
  rw [monoInit_eq]
  exact Or.inl ⟨rfl, rfl⟩

theorem MonoShape_congr {s s' : Synth} (h : MonoShape s) (hv : s'.voices = s.voices)
    (hm : s'.monoVoiceId = s.monoVoiceId) : MonoShape s' := by
  rcases h with ⟨h1, h2⟩ | ⟨vid, v, h1, h2⟩
  · exact Or.inl ⟨hv.trans h1, hm.trans h2⟩
  · exact Or.inr ⟨vid, v, hv.trans h1, hm.trans h2⟩

theorem MonoShape_aupdate {s : Synth} (h : MonoShape s) (f : Voice → Voice) (k : ℕ)
    {s' : Synth} (hv : s'.voices = aupdate f s.voices k)
    (hm : s'.monoVoiceId = s.monoVoiceId) : MonoShape s' := by
  rcases h with ⟨h1, h2⟩ | ⟨vid, v, h1, h2⟩
  · exact Or.inl ⟨by rw [hv, h1]; rfl, hm.trans h2⟩
  · by_cases hk : vid = k
    · subst hk
      exact Or.inr ⟨vid, f v, by rw [hv, h1]; simp [aupdate], hm.trans h2⟩
    · exact Or.inr ⟨vid, v, by rw [hv, h1]; simp [aupdate, hk], hm.trans h2⟩

theorem MonoShape_step {s : Synth} (hm : s.params.mono = true) (h : MonoShape s) (e : Ev) :
    MonoShape (s.step e) := by
  cases e with
  | noteOnEv n vel =>
    show MonoShape (s.noteOn n vel)
    rw [noteOn_eq_mono hm]
    rcases h with ⟨h1, h2⟩ | ⟨vid, v, h1, h2⟩
    · rw [noteOnMono_eq_none h2]
      exact Or.inr ⟨s.voiceCounter + 1, _, by rw [h1]; rfl, rfl⟩
    · have hl : alookup s.voices vid = some v := by simp [h1, alookup]
      rw [noteOnMono_eq_found h2 hl]
      exact MonoShape_aupdate (Or.inr ⟨vid, v, h1, h2⟩) _ vid rfl rfl
  | noteOffEv n =>
    show MonoShape (s.noteOff n)
    rw [noteOff_eq_mono hm]
    by_cases hp : (s.pressedNotes.erase n).isEmpty
    · cases hmv : s.monoVoiceId with
      | none =>
        rw [noteOffMono_eq_novoice n hp (Or.inl hmv)]
        exact MonoShape_congr h rfl rfl
      | some mid =>
        cases hl : alookup s.voices mid with
        | none =>
          rw [noteOffMono_eq_novoice n hp (Or.inr ⟨mid, hmv, hl⟩)]
          exact MonoShape_congr h rfl rfl
        | some v =>
          rw [noteOffMono_eq_lastoff n hp hmv hl]
          exact MonoShape_aupdate h Voice.release mid rfl rfl
    · rw [noteOffMono_eq_held n hp]
      exact MonoShape_congr h rfl rfl
  | endedEv vid =>
    show MonoShape (s.endedCallback vid)
    rcases h with ⟨h1, h2⟩ | ⟨vid0, v, h1, h2⟩
    · refine Or.inl ⟨?_, ?_⟩
      · show aerase s.voices vid = []
        rw [h1]
        rfl
      · show (if s.monoVoiceId = some vid then none else s.monoVoiceId) = none
        simp [h2]
    · by_cases hk : vid0 = vid
      · subst hk
        refine Or.inl ⟨?_, ?_⟩
        · show aerase s.voices vid0 = []
          rw [h1]
          simp [aerase]
        · show (if s.monoVoiceId = some vid0 then none else s.monoVoiceId) = none
          simp [h2]
      · refine Or.inr ⟨vid0, v, ?_, ?_⟩
        · show aerase s.voices vid = [(vid0, v)]
          rw [h1]
          simp [aerase, hk]
        · show (if s.monoVoiceId = some vid then none else s.monoVoiceId) = some vid0
          simp [h2, hk]

theorem MonoShape_run (evs : List Ev) : MonoShape (monoRun evs) := by
  have main : ∀ (evs : List Ev) (s : Synth), s.params.mono = true → MonoShape s →
      MonoShape (s.run evs) := by
    intro evs
    induction evs with
    | nil => exact fun s _ h => h
    | cons e t ih =>
      intro s hm h
      exact ih (s.step e) (by rw [params_step]; exact hm) (MonoShape_step hm h e)
  exact main evs monoInit monoInit_mono MonoShape_monoInit

theorem monoRun_mono (evs : List Ev) : (monoRun evs).params.mono = true := by
  show ((monoInit).run evs).params.mono = true
  rw [params_run]
  exact monoInit_mono

theorem MonoShape.length_le_one {s : Synth} (h : MonoShape s) : s.voices.length ≤ 1 := by
  rcases h with ⟨h1, _⟩ | ⟨vid, v, h1, _⟩ <;> simp [h1]

/-! ### Remaining support lemmas -/

theorem alookup_filter {α : Type} (p : ℕ × α → Bool) (l : List (ℕ × α)) (k : ℕ) {v : α}
    (h : alookup (l.filter p) k = some v) : p (k, v) = true := by
  induction l with
  | nil => simp [alookup] at h
  | cons q t ih =>
    obtain ⟨a, b⟩ := q
    by_cases hp : p (a, b)
    · rw [List.filter_cons_of_pos hp] at h
      by_cases hk : a = k
      · subst hk
        simp [alookup] at h
        subst h
        exact hp
      · simp [alookup, hk] at h
        exact ih h
    · rw [List.filter_cons_of_neg (by simpa using hp)] at h
      exact ih h

theorem endedCallback_no_empty_stack (s : Synth) (vid n : ℕ) :
    alookup (s.endedCallback vid).noteStacks n ≠ some [] := by
  intro h
  have h' : alookup ((s.noteStacks.map (fun q => (q.1, q.2.erase vid))).filter
      (fun q => ¬ q.2.isEmpty)) n = some [] := h
  have := alookup_filter _ _ _ h'
  simp at this

theorem alookup_aerase_self {α : Type} {l : List (ℕ × α)} {k : ℕ}
    (h : (l.map Prod.fst).Nodup) : alookup (aerase l k) k = none := by
  induction l with
  | nil => simp [aerase, alookup]
  | cons q t ih =>
    obtain ⟨a, b⟩ := q
    simp only [List.map_cons, List.nodup_cons] at h
    by_cases hk : a = k
    · subst hk
      have herase : aerase ((a, b) :: t) a = t := by simp [aerase]
      rw [herase]
      exact alookup_eq_none.mpr h.1
    · simp only [aerase, hk, if_false]
      simp [alookup, hk]
      exact ih h.2

theorem main1_noteOffPoly_removes_key (st : Main1.St) (note : ℕ) (stack : List ℕ)
    (hkeys : (st.voices.map Prod.fst).Nodup)
    (h : alookup st.voices note = some stack) (hne : ¬ stack.isEmpty)
    (hd : stack.dropLast.isEmpty) :
    alookup (Main1.noteOffPoly st note).voices note = none := by
  unfold Main1.noteOffPoly
  rw [h]
  simp only [hne, if_false]
  cases hl : stack.getLast? with
  | none =>
    exact absurd (List.getLast?_isSome.mpr (by simpa using hne)) (by simp [hl])
  | some v =>
    simp only [hd, if_true]
    exact alookup_aerase_self hkeys

theorem main2_vel0_eq_noteOff (st : Main2.St) (note : ℕ) :
    Main2.onNoteOn st note 0 = Main2.onNoteOff st note := by
  simp [Main2.onNoteOn, Main2.onNoteOff]

theorem trigger_gainSched (v : Voice) (vel : ℚ) :
    (v.trigger vel).gainSched = v.gainSched ++
      [GainCmd.cancel, GainCmd.setValue v.gainValue,
       GainCmd.rampTo (max (1/10000) vel) v.env.attack,
       GainCmd.rampTo ((max (1/10000) vel) * v.env.sustain) (v.env.attack + v.env.decay)] := rfl

theorem trigger_origin_is_current (v : Voice) (vel : ℚ) :
    rampOrigin ((v.trigger vel).gainSched.drop v.gainSched.length) = some v.gainValue := by
  rw [trigger_gainSched, List.drop_left]
  rfl

theorem trigger_no_other_setValue (v : Voice) (vel : ℚ) :
    ∃ rest, (v.trigger vel).gainSched
        = v.gainSched ++ [GainCmd.cancel, GainCmd.setValue v.gainValue] ++ rest
      ∧ ∀ c ∈ rest, ∀ x, c ≠ GainCmd.setValue x := by
  refine ⟨[GainCmd.rampTo (max (1/10000) vel) v.env.attack,
    GainCmd.rampTo ((max (1/10000) vel) * v.env.sustain) (v.env.attack + v.env.decay)],
    by rw [trigger_gainSched]; simp, ?_⟩
  intro c hc x
  rcases List.mem_cons.mp hc with hc | hc
  · simp [hc]
  · rcases List.mem_cons.mp hc with hc | hc
    · simp [hc]
    · simp at hc

theorem retrigger_origin_is_floor (w : SynthVoiceC) (velocity : Option ℚ) :
    rampOrigin ((w.retrigger velocity).gainSched.drop w.gainSched.length)
      = some (1/10000) := by
  show rampOrigin ((w.gainSched ++ _).drop w.gainSched.length) = some (1/10000)
  rw [List.drop_left]
  rfl

theorem setFrequencySmooth_preserves_gain (v : Voice) (freq : ℝ) (glideMs : ℚ) :
    (v.setFrequencySmooth freq glideMs).gainSched = v.gainSched
    ∧ (v.setFrequencySmooth freq glideMs).gainValue = v.gainValue := ⟨rfl, rfl⟩

theorem setDelayFeedback_bounds (p : Params) (fb : Option ℚ) :
    0 ≤ (p.setDelayFeedback fb).delay.feedback
    ∧ (p.setDelayFeedback fb).delay.feedback ≤ 95/100 := by
  show 0 ≤ clampQ (jsOr fb 0) 0 (95/100) ∧ clampQ (jsOr fb 0) 0 (95/100) ≤ 95/100
  unfold clampQ
  constructor
  · exact le_min (by norm_num) (le_max_left _ _)
  · exact min_le_left _ _

theorem mtof_69_eq_440 : mtof 69 = 440 := by
  have h0 : (((69 : ℕ) : ℝ) - 69) / 12 = 0 := by norm_num
  rw [mtof, h0, Real.rpow_zero]
  norm_num

theorem mtof_strictMono {m k : ℕ} (h : m < k) : mtof m < mtof k := by
  unfold mtof
  have h440 : (0 : ℝ) < 440 := by norm_num
  refine (mul_lt_mul_left h440).mpr ?_
  rw [Real.rpow_lt_rpow_left_iff one_lt_two]
  have h12 : (0 : ℝ) < 12 := by norm_num
  rw [div_lt_div_iff_of_pos_right h12]
  have : (m : ℝ) < (k : ℝ) := by exact_mod_cast h
  linarith

theorem stack_length_le {s : Synth} (hwf : WF s)
    (hcap : s.voices.length ≤ s.params.maxVoices)
    {n : ℕ} {st : List ℕ} (h : alookup s.noteStacks n = some st) :
    st.length ≤ s.params.maxVoices := by
  obtain ⟨h1, h2, h3, h4⟩ := hwf
  obtain ⟨hnd, hsub⟩ := h3 (n, st) (alookup_mem h)
  have hsubset : st ⊆ s.voices.map Prod.fst := fun i hi => hsub i hi
  have hle := List.Subperm.length_le (List.Nodup.subperm hnd hsubset)
  simp only [List.length_map] at hle
  exact le_trans hle hcap

theorem onNoteOff_counter (st : Main2.St) (note : ℕ) :
    (Main2.onNoteOff st note).counter = st.counter := by
  unfold Main2.onNoteOff
  cases h : alookup st.voices note <;> simp [h]

/-! ## The claims -/

/-- C1: in polyphonic mode, whenever an accepted note-on pushes the live
voice count above `maxVoices`, the voice picked for the forced release
is the single voice with the earliest creation time (= smallest id, JS
`Map` insertion order) across the entire live set after insertion; its
`release()` is invoked — scheduling the Release ramp, the object
surviving in the graveyard with `stopped = true` rather than being torn
down — and no other voice is released by the steal (the release trace
grows by exactly that one id, every other live voice is untouched). -/
theorem C1_steal_releases_single_oldest (s : Synth) (hwf : WF s)
    (hm : s.params.mono = false) (n : ℕ) (vel : ℚ)
    (hsteal : s.voices.length + 1 > s.params.maxVoices) :
    ∃ stolen ov,
      (s.noteOn n vel).released = s.released ++ [stolen]
      ∧ stolen ∈ s.insertedLiveIds
      ∧ (∀ k ∈ s.insertedLiveIds, stolen ≤ k)
      ∧ (s.noteOn n vel).graveyard = s.graveyard ++ [Voice.release ov]
      ∧ (Voice.release ov).stopped = true
      ∧ alookup (s.noteOn n vel).voices stolen = none
      ∧ (∀ k, k ≠ stolen →
           alookup (s.noteOn n vel).voices k =
             alookup (s.insertVoiceAndStack n (mtof n) (clampQ (vel / 127) 0 1)).voices k) :=
  steal_characterisation s hwf hm n vel hsteal

/-- C1 witness: sixteen note-ons fill the default 16-voice engine; the
seventeenth steals, the released id is minimal among the live ids. -/
theorem C1_witness :
    ∃ stolen, ((polyRun sixteenOns).noteOn 61 100).released
        = (polyRun sixteenOns).released ++ [stolen]
      ∧ ∀ k ∈ (polyRun sixteenOns).insertedLiveIds, stolen ≤ k := by
  obtain ⟨stolen, ov, h1, _, h3, _⟩ :=
    C1_steal_releases_single_oldest (polyRun sixteenOns) (WF_run WF_init sixteenOns)
      (by show (Synth.init.run sixteenOns).params.mono = false
          rw [params_run]
          rfl)
      61 100 (by decide)
  exact ⟨stolen, h1, h3⟩

/-- C2: for every event sequence processed by the polyphonic machine
(fresh engine, `mono = false`), after each event settles the number of
live voices is at most `maxVoices`. -/
theorem C2_global_cap (evs : List Ev) :
    (polyRun evs).voices.length ≤ (polyRun evs).params.maxVoices :=
  cap_run rfl (by decide) evs

/-- C2 witness: one note-on stays within the cap. -/
theorem C2_witness :
    (polyRun [Ev.noteOnEv 60 100]).voices.length
      ≤ (polyRun [Ev.noteOnEv 60 100]).params.maxVoices :=
  C2_global_cap [Ev.noteOnEv 60 100]

/-- C3 counterexample: after `noteOn(60)` then `noteOff(60)` the stack of
note 60 was emptied by the LIFO pop, yet key 60 is still present in the
mapping, bound to an empty array — `Synth.noteOff` never deletes it. -/
theorem C3_counterexample :
    alookup ((Synth.init.noteOn 60 100).noteOff 60).noteStacks 60 = some [] := rfl

/-- C3 (amended): polyphonic `noteOff` pops exactly the most recently
pushed (LIFO) voice id, transitions exactly that voice to Release and
leaves every other voice and every other note's stack unchanged; the
emptied entry, however, is removed from the mapping immediately only in
`main.js`'s `noteOffPoly` — in the module `Synth` it is removed when a
voice's `onEnded` cleanup runs (which deletes every empty stack). -/
theorem C3_amended_lifo_pop :
    (∀ (s : Synth) (n : ℕ) (st : List ℕ) (vid : ℕ) (v : Voice),
       s.params.mono = false →
       alookup s.noteStacks n = some st → st.getLast? = some vid →
       alookup s.voices vid = some v →
       (s.noteOff n).noteStacks = aupdate List.dropLast s.noteStacks n
       ∧ (s.noteOff n).released = s.released ++ [vid]
       ∧ alookup (s.noteOff n).voices vid = some (Voice.release v)
       ∧ (∀ k, k ≠ vid → alookup (s.noteOff n).voices k = alookup s.voices k)
       ∧ (∀ m, m ≠ n → alookup (s.noteOff n).noteStacks m = alookup s.noteStacks m))
    ∧ (∀ (s : Synth) (vid n : ℕ), alookup (s.endedCallback vid).noteStacks n ≠ some [])
    ∧ (∀ (st : Main1.St) (note : ℕ) (stack : List ℕ),
        (st.voices.map Prod.fst).Nodup →
        alookup st.voices note = some stack → ¬ stack.isEmpty →
        stack.dropLast.isEmpty →
        alookup (Main1.noteOffPoly st note).voices note = none) := by
  refine ⟨?_, endedCallback_no_empty_stack, main1_noteOffPoly_removes_key⟩
  intro s n st vid v hm hst hlast hv
  have he : ¬ st.isEmpty := by
    cases st
    · simp at hlast
    · simp
  rw [noteOff_eq_poly hm, noteOffPoly_eq_pop n hst he hlast hv]
  refine ⟨rfl, rfl, ?_, ?_, ?_⟩
  · show alookup (aupdate Voice.release s.voices vid) vid = some (Voice.release v)
    rw [alookup_aupdate_self, hv]
    rfl
  · intro k hk
    exact alookup_aupdate_ne Voice.release s.voices hk
  · intro m hmn
    exact alookup_aupdate_ne List.dropLast s.noteStacks hmn

/-- C3 witness: one stacked voice, popped and released by `noteOff`;
and `onEnded` cleanup leaves no empty stack entry. -/
theorem C3_witness :
    ((Synth.init.noteOn 60 100).noteOff 60).released = [1]
    ∧ alookup ((Synth.init.noteOn 60 100).endedCallback 1).noteStacks 60 ≠ some [] := by
  obtain ⟨h1, h2, _⟩ := C3_amended_lifo_pop
  refine ⟨?_, h2 _ 1 60⟩
  have h := h1 (Synth.init.noteOn 60 100) 60 [1] 1
    ((Voice.init 1 (mtof 60)).trigger (clampQ (100 / 127) 0 1)) rfl rfl rfl rfl
  simpa using h.2.1

/-- C4 counterexample: the classic `SynthVoice.retrigger` of src/synth.js,
applied to a voice whose instantaneous gain is 0.3 (a sounding voice),
starts the new envelope from the hard-coded 0.0001 — a value different
from the current gain, contradicting the claim for this variant. -/
theorem C4_counterexample :
    rampOrigin (((⟨3/10, [], 1/100, 12/100⟩ : SynthVoiceC).retrigger (some 100)).gainSched)
      = some (1/10000)
    ∧ (1/10000 : ℚ) ≠ (⟨3/10, [], 1/100, 12/100⟩ : SynthVoiceC).gainValue :=
  ⟨rfl, by norm_num⟩

/-- C4 (amended): in the module `Synth` (part_003) every envelope trigger
captures the voice's current gain as the new ramp origin and schedules no
other discontinuous set-value; the classic `SynthVoice.retrigger` of
src/synth.js instead always resets the gain to the 0.0001 floor,
regardless of the current value. -/
theorem C4_amended_trigger_origin :
    (∀ (v : Voice) (vel : ℚ),
       rampOrigin ((v.trigger vel).gainSched.drop v.gainSched.length) = some v.gainValue
       ∧ ∃ rest, (v.trigger vel).gainSched
           = v.gainSched ++ [GainCmd.cancel, GainCmd.setValue v.gainValue] ++ rest
         ∧ ∀ c ∈ rest, ∀ x, c ≠ GainCmd.setValue x)
    ∧ (∀ (w : SynthVoiceC) (velocity : Option ℚ),
       rampOrigin ((w.retrigger velocity).gainSched.drop w.gainSched.length)
         = some (1/10000)) :=
  ⟨fun v vel => ⟨trigger_origin_is_current v vel, trigger_no_other_setValue v vel⟩,
   retrigger_origin_is_floor⟩

/-- C4 witness: a fresh module voice triggers from its current gain; a
fresh classic voice retriggers from the 0.0001 floor. -/
theorem C4_witness :
    rampOrigin (((Voice.init 1 (mtof 60)).trigger 1).gainSched.drop
        (Voice.init 1 (mtof 60)).gainSched.length)
      = some (Voice.init 1 (mtof 60)).gainValue
    ∧ rampOrigin (((⟨0, [], 1/100, 12/100⟩ : SynthVoiceC).retrigger none).gainSched.drop
        (⟨0, [], 1/100, 12/100⟩ : SynthVoiceC).gainSched.length)
      = some (1/10000) :=
  ⟨(C4_amended_trigger_origin.1 (Voice.init 1 (mtof 60)) 1).1,
   C4_amended_trigger_origin.2 ⟨0, [], 1/100, 12/100⟩ none⟩

/-- C5 counterexample: with the engine's only cap (`maxVoices = 16`),
sixteen note-ons for note 60 stack sixteen voices on that one note with
no forced release at all — so no per-note cap below the global cap
exists — and the seventeenth note-on, for the *different* note 61, is
what forces the release of voice 1, the oldest entry of note 60's stack:
the only release mechanism is the global steal, not an independent
per-note FIFO. -/
theorem C5_counterexample :
    (polyRun sixteenOns).released = []
    ∧ alookup (polyRun sixteenOns).noteStacks 60
        = some [1, 2, 3, 4, 5, 6, 7, 8, 9, 10, 11, 12, 13, 14, 15, 16]
    ∧ ((polyRun sixteenOns).noteOn 61 100).released = [1]
    ∧ alookup ((polyRun sixteenOns).noteOn 61 100).noteStacks 60
        = some [2, 3, 4, 5, 6, 7, 8, 9, 10, 11, 12, 13, 14, 15, 16] :=
  ⟨rfl, rfl, rfl, rfl⟩

/-- C5 (amended): there is no per-note cap independent of the global one;
a note's stack is bounded only because each entry is a live voice id, so
`|NoteStack[n]| ≤ maxVoices` holds after every event of the polyphonic
machine. -/
theorem C5_amended_stack_bounded_by_global_cap (evs : List Ev) (n : ℕ) (st : List ℕ)
    (h : alookup (polyRun evs).noteStacks n = some st) :
    st.length ≤ (polyRun evs).params.maxVoices :=
  stack_length_le (WF_run WF_init evs) (cap_run rfl (by decide) evs) h

/-- C5 witness: a single note-on yields a one-entry stack, within the cap. -/
theorem C5_witness :
    alookup (polyRun [Ev.noteOnEv 60 100]).noteStacks 60 = some [1]
    ∧ [1].length ≤ (polyRun [Ev.noteOnEv 60 100]).params.maxVoices :=
  ⟨rfl, C5_amended_stack_bounded_by_global_cap [Ev.noteOnEv 60 100] 60 [1] rfl⟩

/-- C6: monophonic behaviour.  After any event sequence of the mono
machine: (i) at most one voice exists system-wide; (ii) a note-on with no
existing voice creates the single voice and points `monoVoiceId` at it;
(iii) a note-on while the voice exists creates nothing — it re-pitches
that same voice to `mtof(note)` (a frequency ramp over the configured
glide time starting at the current frequency value) and re-triggers its
envelope from its current gain (never from zero); (iv) `noteOff(n)`
removes `n` from the held-notes set and releases the single voice
exactly when that set becomes empty. -/
theorem C6_mono_behaviour (evs : List Ev) :
    (monoRun evs).voices.length ≤ 1
    ∧ (∀ (n : ℕ) (vel : ℚ), (monoRun evs).monoVoiceId = none →
        ((monoRun evs).noteOn n vel).voices.length = 1
        ∧ ((monoRun evs).noteOn n vel).monoVoiceId
            = some ((monoRun evs).voiceCounter + 1))
    ∧ (∀ (n : ℕ) (vel : ℚ) (vid : ℕ) (v : Voice),
        (monoRun evs).monoVoiceId = some vid →
        alookup (monoRun evs).voices vid = some v →
        alookup ((monoRun evs).noteOn n vel).voices vid
          = some ((v.setFrequencySmooth (mtof n) (monoRun evs).params.glideMs).trigger
              (clampQ (vel / 127) 0 1))
        ∧ ((monoRun evs).noteOn n vel).voices.length = (monoRun evs).voices.length
        ∧ (v.setFrequencySmooth (mtof n) (monoRun evs).params.glideMs).freq = mtof n
        ∧ ((monoRun evs).params.glideMs > 0 →
            (v.setFrequencySmooth (mtof n) (monoRun evs).params.glideMs).freqSched
              = v.freqSched ++ [FreqCmd.cancel, FreqCmd.setValue v.freqValue,
                  FreqCmd.rampOver (mtof n) (max 0 (monoRun evs).params.glideMs)])
        ∧ rampOrigin
            (((v.setFrequencySmooth (mtof n) (monoRun evs).params.glideMs).trigger
                (clampQ (vel / 127) 0 1)).gainSched.drop v.gainSched.length)
            = some v.gainValue)
    ∧ (∀ n : ℕ,
        ((monoRun evs).noteOff n).pressedNotes = (monoRun evs).pressedNotes.erase n
        ∧ (¬ ((monoRun evs).pressedNotes.erase n).isEmpty →
            ((monoRun evs).noteOff n).released = (monoRun evs).released)
        ∧ (((monoRun evs).pressedNotes.erase n).isEmpty →
            ∀ vid, (monoRun evs).monoVoiceId = some vid →
              ((monoRun evs).noteOff n).released = (monoRun evs).released ++ [vid])) := by
  have hm := monoRun_mono evs
  have hshape := MonoShape_run evs
  refine ⟨hshape.length_le_one, ?_, ?_, ?_⟩
  · intro n vel hnone
    have hempty : (monoRun evs).voices = [] := by
      rcases hshape with ⟨h1, _⟩ | ⟨vid, v, _, h2⟩
      · exact h1
      · rw [hnone] at h2
        exact absurd h2 (by simp)
    rw [noteOn_eq_mono hm, noteOnMono_eq_none hnone]
    constructor
    · show ((monoRun evs).voices ++ [_]).length = 1
      rw [hempty]
      rfl
    · rfl
  · intro n vel vid v hvid hv
    rw [noteOn_eq_mono hm, noteOnMono_eq_found hvid hv]
    refine ⟨?_, ?_, rfl, ?_, ?_⟩
    · show alookup (aupdate _ (monoRun evs).voices vid) vid = _
      rw [alookup_aupdate_self, hv]
      rfl
    · show (aupdate _ (monoRun evs).voices vid).length = (monoRun evs).voices.length
      exact length_aupdate _ _ _
    · intro hg
      simp [Voice.setFrequencySmooth, hg]
    · have h := trigger_origin_is_current
        (v.setFrequencySmooth (mtof n) (monoRun evs).params.glideMs)
        (clampQ (vel / 127) 0 1)
      obtain ⟨hsched, hgain⟩ := setFrequencySmooth_preserves_gain v (mtof n)
        (monoRun evs).params.glideMs
      rw [hsched, hgain] at h
      exact h
  · intro n
    rw [noteOff_eq_mono hm]
    by_cases hp : ((monoRun evs).pressedNotes.erase n).isEmpty
    · refine ⟨?_, fun hne => absurd hp hne, ?_⟩
      · cases hmv : (monoRun evs).monoVoiceId with
        | none => rw [noteOffMono_eq_novoice n hp (Or.inl hmv)]
        | some mid =>
          rcases hshape with ⟨_, h2⟩ | ⟨vid0, v0, h1, h2⟩
          · rw [hmv] at h2
            exact absurd h2 (by simp)
          · rw [hmv] at h2
            have hveq : vid0 = mid := (Option.some.inj h2).symm
            subst hveq
            have hv : alookup (monoRun evs).voices vid0 = some v0 := by
              rw [h1]
              simp [alookup]
            rw [noteOffMono_eq_lastoff n hp hmv hv]
      · intro he vid hvid
        rcases hshape with ⟨_, h2⟩ | ⟨vid0, v0, h1, h2⟩
        · rw [hvid] at h2
          exact absurd h2 (by simp)
        · rw [hvid] at h2
          have hveq : vid0 = vid := (Option.some.inj h2).symm
          subst hveq
          have hv : alookup (monoRun evs).voices vid0 = some v0 := by
            rw [h1]
            simp [alookup]
          rw [noteOffMono_eq_lastoff n hp hvid hv]
    · rw [noteOffMono_eq_held n hp]
      exact ⟨rfl, fun _ => rfl, fun he => absurd he hp⟩

/-- C6 witness: press 60, release 60 — the held set empties and the
single voice (id 1) is released. -/
theorem C6_witness :
    (monoRun [Ev.noteOnEv 60 100]).voices.length ≤ 1
    ∧ ((monoRun [Ev.noteOnEv 60 100]).noteOff 60).released
        = (monoRun [Ev.noteOnEv 60 100]).released ++ [1] := by
  obtain ⟨h1, _, _, h4⟩ := C6_mono_behaviour [Ev.noteOnEv 60 100]
  exact ⟨h1, (h4 60).2.2 (by decide) 1 rfl⟩

/-- C7: a polyphonic `noteOff` for a note with no active stack entry
(no stack, or an empty stack) is a strict no-op on the engine state, and
the model is total — no error propagates. -/
theorem C7_redundant_noteOff_noop (s : Synth) (hm : s.params.mono = false) (n : ℕ)
    (h : alookup s.noteStacks n = none ∨ alookup s.noteStacks n = some []) :
    s.noteOff n = s := by
  rw [noteOff_eq_poly hm]
  rcases h with h | h
  · exact noteOffPoly_eq_nostack n h
  · exact noteOffPoly_eq_empty n h (by simp)

/-- C7 witness: a note-off on a fresh engine changes nothing. -/
theorem C7_witness : Synth.init.noteOff 60 = Synth.init :=
  C7_redundant_noteOff_noop Synth.init rfl 60 (Or.inl rfl)

/-- C8 counterexample: the module `Synth.noteOn` does not special-case
velocity 0: on a fresh engine `noteOn(60, 0)` creates one (near-silent)
voice while `noteOff(60)` at the same point is a no-op, so the two
effects on the engine state differ. -/
theorem C8_counterexample :
    (Synth.init.noteOn 60 0).voices.length = 1
    ∧ Synth.init.noteOff 60 = Synth.init
    ∧ (Synth.init.noteOn 60 0).voices.length ≠ (Synth.init.noteOff 60).voices.length :=
  ⟨rfl, rfl, by decide⟩

/-- C8 (amended): the velocity-0-as-implicit-note-off guarantee lives in
the `main.js` MIDI note-on handler: at velocity 0 its effect equals the
note-off handler's exactly and it constructs no new voice; the module
`Synth.noteOn` itself performs no such special-casing (see the
counterexample). -/
theorem C8_amended_vel0_in_handler (st : Main2.St) (note : ℕ) :
    Main2.onNoteOn st note 0 = Main2.onNoteOff st note
    ∧ (Main2.onNoteOn st note 0).counter = st.counter := by
  refine ⟨main2_vel0_eq_noteOff st note, ?_⟩
  rw [main2_vel0_eq_noteOff st note]
  exact onNoteOff_counter st note

/-- C8 witness: on a fresh handler state, a velocity-0 note-on equals a
note-off and creates nothing. -/
theorem C8_witness :
    Main2.onNoteOn Main2.initSt 60 0 = Main2.onNoteOff Main2.initSt 60
    ∧ (Main2.onNoteOn Main2.initSt 60 0).counter = Main2.initSt.counter :=
  C8_amended_vel0_in_handler Main2.initSt 60

/-- C9: the delay feedback gain is strictly below 1 at all times: every
variant's initial value is 0.35 < 1, and the only feedback setter clamps
any input — including out-of-range and unparsable (`none`) input — into
[0, 0.95], whose upper bound is strictly below 1. -/
theorem C9_feedback_lt_one :
    initParams.delay.feedback < 1
    ∧ Classic.FX_delayFb < 1
    ∧ Classic.SimpleFX_delayFB < 1
    ∧ ∀ (p : Params) (fb : Option ℚ),
        0 ≤ (p.setDelayFeedback fb).delay.feedback
        ∧ (p.setDelayFeedback fb).delay.feedback ≤ 95/100
        ∧ (p.setDelayFeedback fb).delay.feedback < 1 := by
  refine ⟨by norm_num [initParams], by norm_num [Classic.FX_delayFb],
    by norm_num [Classic.SimpleFX_delayFB], ?_⟩
  intro p fb
  obtain ⟨h0, h95⟩ := setDelayFeedback_bounds p fb
  exact ⟨h0, h95, lt_of_le_of_lt h95 (by norm_num)⟩

/-- C9 witness: an out-of-range input (2) is clamped below 1. -/
theorem C9_witness :
    0 ≤ (initParams.setDelayFeedback (some 2)).delay.feedback
    ∧ (initParams.setDelayFeedback (some 2)).delay.feedback ≤ 95/100
    ∧ (initParams.setDelayFeedback (some 2)).delay.feedback < 1 :=
  C9_feedback_lt_one.2.2.2 initParams (some 2)

/-- C10: every note-to-frequency conversion computes
`440 * 2 ^ ((n - 69) / 12)`: MIDI note 69 maps exactly to 440 Hz, the
map is strictly increasing, and the module, classic and inline variants
are one and the same function. -/
theorem C10_mtof_agreement :
    mtof 69 = 440
    ∧ (∀ m k : ℕ, m < k → mtof m < mtof k)
    ∧ Classic.Synth_mtof = mtof
    ∧ Main1.hzOf = mtof :=
  ⟨mtof_69_eq_440, fun _ _ h => mtof_strictMono h, rfl, rfl⟩

/-- C10 witness: 60 < 69 and mtof is strictly increasing there. -/
theorem C10_witness : (60 : ℕ) < 69 ∧ mtof 60 < mtof 69 :=
  ⟨by decide, C10_mtof_agreement.2.1 60 69 (by decide)⟩

end SynthModel
